import Mathlib

/-!
Verification of the BiblioSearch result-extraction and temporal-aggregation
pipeline.

The Python source is shallowly embedded: JSON-like records become the
inductive type Value, Python exceptions become an Except layer (PyErr),
and each source function (parse_results, filter_by_period,
parse_results_for_animation, prepare_rolling_data, calculate_max_window)
is translated into an executable Lean definition that mirrors the source
control flow, including the exact points where the Python code can raise.

Modelling conventions, noted once here:
- Python set iteration order is unspecified; sets of strings built
  incrementally are modelled as insertion-ordered duplicate-free lists,
  and list(set(xs)) is modelled as List.dedup together with a
  hashability check (lists and dicts are unhashable and make set() raise
  TypeError).  No claim below depends on the iteration order of a set.
- Character classes (str.lower, str.strip, the regex word class) are
  modelled over the ASCII range, which covers every input the claims
  mention.
- pandas sort_values is modelled by a total insertion sort on dates;
  pandas value_counts with nlargest / Counter.most_common are modelled
  by a stable descending insertion sort on counts followed by take.
-/

/-- A Python/JSON value as it appears in a Scopus API record. -/
inductive Value where
  | null
  | str (s : String)
  | num (n : Int)
  | list (xs : List Value)
  | obj (fields : List (String × Value))

mutual

def Value.eqb : Value → Value → Bool
  | .null, .null => true
  | .str a, .str b => a == b
  | .num a, .num b => a == b
  | .list xs, .list ys => Value.eqbList xs ys
  | .obj xs, .obj ys => Value.eqbObj xs ys
  | _, _ => false

def Value.eqbList : List Value → List Value → Bool
  | [], [] => true
  | a :: as, b :: bs => Value.eqb a b && Value.eqbList as bs
  | _, _ => false

def Value.eqbObj : List (String × Value) → List (String × Value) → Bool
  | [], [] => true
  | (k, a) :: as, (l, b) :: bs => k == l && Value.eqb a b && Value.eqbObj as bs
  | _, _ => false

end

mutual

theorem Value.eqb_iff : (a b : Value) → (Value.eqb a b = true ↔ a = b)
  | .null, b => by cases b <;> simp [Value.eqb]
  | .str s, b => by cases b <;> simp [Value.eqb]
  | .num n, b => by cases b <;> simp [Value.eqb]
  | .list xs, b => by
      cases b <;> simp [Value.eqb]
      exact Value.eqbList_iff xs _
  | .obj fs, b => by
      cases b <;> simp [Value.eqb]
      exact Value.eqbObj_iff fs _

theorem Value.eqbList_iff : (xs ys : List Value) → (Value.eqbList xs ys = true ↔ xs = ys)
  | [], ys => by cases ys <;> simp [Value.eqbList]
  | x :: xs, [] => by simp [Value.eqbList]
  | x :: xs, y :: ys => by
      simp only [Value.eqbList, Bool.and_eq_true, List.cons.injEq]
      rw [Value.eqb_iff x y, Value.eqbList_iff xs ys]

theorem Value.eqbObj_iff : (xs ys : List (String × Value)) →
    (Value.eqbObj xs ys = true ↔ xs = ys)
  | [], ys => by cases ys <;> simp [Value.eqbObj]
  | x :: xs, [] => by simp [Value.eqbObj]
  | (k, a) :: xs, (l, b) :: ys => by
      simp only [Value.eqbObj, Bool.and_eq_true, List.cons.injEq, Prod.mk.injEq,
        beq_iff_eq]
      rw [Value.eqb_iff a b, Value.eqbObj_iff xs ys, and_assoc]

end

instance : DecidableEq Value := fun a b => decidable_of_iff _ (Value.eqb_iff a b)

/-- Python truthiness of a value: None, empty strings, zero, empty lists
and empty dicts are falsy. -/
def Value.truthy : Value → Bool
  | .null => false
  | .str s => !(s == "")
  | .num n => !(n == 0)
  | .list xs => !xs.isEmpty
  | .obj fs => !fs.isEmpty

/-- Whether a value may be a member of a Python set: lists and dicts are
unhashable. -/
def Value.hashable : Value → Bool
  | .list _ => false
  | .obj _ => false
  | _ => true

/-- A record (Python mapping with string keys). -/
def Entry : Type := List (String × Value)

instance : DecidableEq Entry := by
  unfold Entry
  infer_instance

/-- Dictionary lookup, as Option. -/
def lookupVal (e : Entry) (k : String) : Option Value :=
  (e.find? (fun p => p.1 == k)).map (fun p => p.2)

/-- Membership test for a key, as in the Python expression k in entry. -/
def hasKey (e : Entry) (k : String) : Bool :=
  (lookupVal e k).isSome

/-- entry.get(k), whose default is None. -/
def getVal (e : Entry) (k : String) : Value :=
  (lookupVal e k).getD .null

/-- The Python exceptions that the embedded code can raise. -/
inductive PyErr where
  | attributeError
  | typeError
  | valueError
deriving DecidableEq

instance {ε α : Type} [DecidableEq ε] [DecidableEq α] : DecidableEq (Except ε α) := fun x y =>
  match x, y with
  | .ok a, .ok b => decidable_of_iff (a = b) (by simp)
  | .error a, .error b => decidable_of_iff (a = b) (by simp)
  | .ok _, .error _ => isFalse (fun h => Except.noConfusion h)
  | .error _, .ok _ => isFalse (fun h => Except.noConfusion h)

/-- The character class of the regex word pattern: alphanumeric or
underscore (ASCII model). -/
def isWordChar (c : Char) : Bool :=
  c.isAlphanum || c == '_'

/-- Whitespace for str.strip (ASCII model). -/
def isPySpace (c : Char) : Bool :=
  c == ' ' || c == '\t' || c == '\n' || c == '\r'

/-- str.strip() on a character list. -/
def stripChars (cs : List Char) : List Char :=
  ((cs.dropWhile isPySpace).reverse.dropWhile isPySpace).reverse

/-- str.lower() on a character list (ASCII model). -/
def lowerChars (cs : List Char) : List Char :=
  cs.map Char.toLower

/-- Maximal runs of word characters, accumulating the current run in
reverse: the model of re.findall of the word pattern. -/
def findWordsAux : List Char → List Char → List String
  | [], acc => if acc.isEmpty then [] else [String.mk acc.reverse]
  | c :: cs, acc =>
      if isWordChar c then
        findWordsAux cs (c :: acc)
      else
        if acc.isEmpty then findWordsAux cs []
        else String.mk acc.reverse :: findWordsAux cs []

/-- re.findall of maximal word-character runs over a string. -/
def findWords (cs : List Char) : List String :=
  findWordsAux cs []

/-- Splitting on the literal three-character delimiter of the keywords
field, scanning left to right without overlap, as str.split does. -/
def splitPipeAux : List Char → List Char → List (List Char)
  | ' ' :: '|' :: ' ' :: rest, acc => acc.reverse :: splitPipeAux rest []
  | c :: rest, acc => splitPipeAux rest (c :: acc)
  | [], acc => [acc.reverse]

def splitPipe (cs : List Char) : List (List Char) :=
  splitPipeAux cs []

/-- Decimal digit runs as accepted by the Python int constructor, with
single underscores permitted between digits. -/
def pyDigitsAux : List Char → Nat → Option Nat
  | [], acc => some acc
  | '_' :: c :: cs, acc =>
      if c.isDigit then pyDigitsAux cs (acc * 10 + (c.toNat - 48)) else none
  | ['_'], _ => none
  | c :: cs, acc =>
      if c.isDigit then pyDigitsAux cs (acc * 10 + (c.toNat - 48)) else none

def pyDigits : List Char → Option Nat
  | [] => none
  | c :: cs => if c.isDigit then pyDigitsAux cs (c.toNat - 48) else none

/-- int(s) for a string: strips whitespace, accepts an optional sign and
a digit run, and fails (ValueError in Python) otherwise. -/
def pyIntChars (cs : List Char) : Option Int :=
  match stripChars cs with
  | '+' :: rest => (pyDigits rest).map Int.ofNat
  | '-' :: rest => (pyDigits rest).map (fun n => -(Int.ofNat n : Int))
  | rest => (pyDigits rest).map Int.ofNat

def pyIntOfString (s : String) : Option Int :=
  pyIntChars s.toList

/-- Adding a string to a Python set modelled as an insertion-ordered
duplicate-free list. -/
def insertUnique (l : List String) (s : String) : List String :=
  if s ∈ l then l else l ++ [s]

theorem nodup_insertUnique {l : List String} (h : l.Nodup) (s : String) :
    (insertUnique l s).Nodup := by
  unfold insertUnique
  split
  · exact h
  · next hmem =>
      simpa [List.nodup_append] using ⟨h, by simpa using hmem⟩

theorem nodup_foldl_insertUnique (ws : List String) :
    ∀ l : List String, l.Nodup → (ws.foldl insertUnique l).Nodup := by
  induction ws with
  | nil => intro l h; simpa using h
  | cons w ws ih =>
      intro l h
      exact ih _ (nodup_insertUnique h w)

/-- Splitting a character list on the dash character, as the year
extraction and the date parser need. -/
def splitOnDashAux : List Char → List Char → List (List Char)
  | [], acc => [acc.reverse]
  | c :: cs, acc =>
      if c = '-' then acc.reverse :: splitOnDashAux cs []
      else splitOnDashAux cs (c :: acc)

def splitOnDash (cs : List Char) : List (List Char) :=
  splitOnDashAux cs []

/-- parse_results, keywords branch: split the field on the literal
three-character pipe delimiter, strip and lowercase each piece, and add
the non-empty results to the per-article word set.  A truthy value that
is not a string (a list of keyword strings included) makes the split
attribute access raise AttributeError, exactly as in the source. -/
def keywordWords (v : Value) (acc : List String) : Except PyErr (List String) :=
  match (if v.truthy then v else Value.str "") with
  | .str s =>
      .ok ((splitPipe s.toList).foldl (fun a kw =>
        let ck := String.mk (lowerChars (stripChars kw))
        if ck == "" then a else insertUnique a ck) acc)
  | _ => .error .attributeError

/-- parse_results, title and description branches: lowercase the field
and add every maximal word-character run.  A truthy non-string raises
AttributeError at the lower call. -/
def textFieldWords (v : Value) (acc : List String) : Except PyErr (List String) :=
  match (if v.truthy then v else Value.str "") with
  | .str s => .ok ((findWords (lowerChars s.toList)).foldl insertUnique acc)
  | _ => .error .attributeError

/-- The keyword step of the per-article word set, with the source's
membership guard. -/
def kwStep (e : Entry) : Except PyErr (List String) :=
  match lookupVal e "authkeywords" with
  | some v => keywordWords v []
  | none => .ok []

/-- The title step of parse_results, with the source's membership
guard. -/
def titleStep (e : Entry) (acc : List String) : Except PyErr (List String) :=
  match lookupVal e "dc:title" with
  | some v => textFieldWords v acc
  | none => .ok acc

/-- The description step of parse_results, with the source's membership
guard. -/
def descStep (e : Entry) (acc : List String) : Except PyErr (List String) :=
  match lookupVal e "dc:description" with
  | some v => textFieldWords v acc
  | none => .ok acc

/-- The per-article unique word set of parse_results: keywords, then
title, then description, each exception propagating. -/
def entryWordSet (e : Entry) : Except PyErr (List String) :=
  match kwStep e with
  | .error err => .error err
  | .ok a1 =>
      match titleStep e a1 with
      | .error err => .error err
      | .ok a2 => descStep e a2

/-- One affiliation element's contribution to the organizations list:
only mapping-typed elements that carry the affilname key contribute. -/
def orgsOfAffil (a : Value) : List Value :=
  match a with
  | .obj fs =>
      match lookupVal fs "affilname" with
      | some v => [v]
      | none => []
  | _ => []

/-- One affiliation element's contribution to the countries list. -/
def countriesOfAffil (a : Value) : List Value :=
  match a with
  | .obj fs =>
      match lookupVal fs "affiliation-country" with
      | some v => [v]
      | none => []
  | _ => []

/-- parse_results, affiliation branch, organizations output. -/
def entryOrgs (e : Entry) : List Value :=
  match lookupVal e "affiliation" with
  | some (.list xs) => xs.flatMap orgsOfAffil
  | some (.obj fs) => orgsOfAffil (.obj fs)
  | _ => []

/-- parse_results, affiliation branch, countries output. -/
def entryCountries (e : Entry) : List Value :=
  match lookupVal e "affiliation" with
  | some (.list xs) => xs.flatMap countriesOfAffil
  | some (.obj fs) => countriesOfAffil (.obj fs)
  | _ => []

/-- parse_results, year branch: for a truthy string cover-date, the text
before the first dash is converted with int, a conversion failure being
silently ignored. -/
def entryYear (e : Entry) : Option Int :=
  match lookupVal e "prism:coverDate" with
  | some (.str s) =>
      if s == "" then none
      else pyIntChars ((splitOnDash s.toList).headD [])
  | _ => none

/-- The authname value of a mapping-typed author element. -/
def authnameOf (a : Value) : Option Value :=
  match a with
  | .obj fs => lookupVal fs "authname"
  | _ => none

/-- parse_results, author branch before the creator fallback: the
collected authname values together with the author_found flag. -/
def entryAuthorsFound (e : Entry) : List Value × Bool :=
  match lookupVal e "author" with
  | some (.list xs) =>
      xs.foldl (fun p a =>
        match authnameOf a with
        | some v => (p.1 ++ [v], true)
        | none => p) ([], false)
  | some (.obj fs) =>
      match lookupVal fs "authname" with
      | some v => ([v], true)
      | none => ([], false)
  | _ => ([], false)

/-- parse_results, author branch with the creator fallback: when no
authname was found, a truthy string dc:creator is appended. -/
def entryAuthors (e : Entry) : List Value :=
  let p := entryAuthorsFound e
  if p.2 then p.1
  else
    match lookupVal e "dc:creator" with
    | some (.str s) => if s == "" then p.1 else p.1 ++ [.str s]
    | _ => p.1

/-- The five aggregate sequences returned by parse_results. -/
structure ParseOut where
  all_words_for_cloud : List String
  orgs : List Value
  countries : List Value
  years : List Int
  authors : List Value
deriving DecidableEq

def parse_resultsAux : List Entry → ParseOut → Except PyErr ParseOut
  | [], st => .ok st
  | e :: es, st =>
      match entryWordSet e with
      | .error err => .error err
      | .ok ws =>
          parse_resultsAux es
            { all_words_for_cloud := st.all_words_for_cloud ++ ws
              orgs := st.orgs ++ entryOrgs e
              countries := st.countries ++ entryCountries e
              years := st.years ++ (entryYear e).toList
              authors := st.authors ++ entryAuthors e }

/-- The batch extractor of src/utils/parse_results.py, over the
exception-aware embedding. -/
def parse_results (entries : List Entry) : Except PyErr ParseOut :=
  parse_resultsAux entries ⟨[], [], [], [], []⟩

/-- Python slicing v[:4], defined for strings and lists and raising
TypeError otherwise. -/
def pySliceTo4 (v : Value) : Except PyErr Value :=
  match v with
  | .str s => .ok (.str (String.mk (s.toList.take 4)))
  | .list xs => .ok (.list (xs.take 4))
  | _ => .error .typeError

/-- The int constructor on a value: ints pass through, strings parse or
raise ValueError, anything else raises TypeError. -/
def pyIntOfValue (v : Value) : Except PyErr Int :=
  match v with
  | .num n => .ok n
  | .str s =>
      match pyIntOfString s with
      | some n => .ok n
      | none => .error .valueError
  | _ => .error .typeError

/-- The body of the try block of filter_by_period: slice the leading
four characters of the cover-date value, convert with int, and compare
against the inclusive bounds. -/
def periodTryBody (dv : Value) (start_year end_year : Int) : Except PyErr Bool :=
  match pySliceTo4 dv with
  | .error err => .error err
  | .ok sliced =>
      match pyIntOfValue sliced with
      | .error err => .error err
      | .ok y => .ok (decide (start_year ≤ y) && decide (y ≤ end_year))

/-- The loop body of filter_by_period for one record: the truthiness
guard on the cover-date, then the try block with every exception caught
as a skip. -/
def keepCode (ent : Entry) (start_year end_year : Int) : Bool :=
  if (getVal ent "prism:coverDate").truthy then
    match periodTryBody (getVal ent "prism:coverDate") start_year end_year with
    | .ok b => b
    | .error _ => false
  else false

/-- src/utils/filter_by_period.py: every exception of the try body is
caught and the record is skipped. -/
def filter_by_period : List Entry → Int → Int → List Entry
  | [], _, _ => []
  | ent :: rest, s, e =>
      if keepCode ent s e then ent :: filter_by_period rest s e
      else filter_by_period rest s e

/-- The retention rule in the specification's words: a record is kept
iff its cover-date is a string whose leading four characters parse as an
integer year inside the inclusive bounds. -/
def keepBySpec (ent : Entry) (start_year end_year : Int) : Bool :=
  match lookupVal ent "prism:coverDate" with
  | some (.str s) =>
      match pyIntChars (s.toList.take 4) with
      | some y => decide (start_year ≤ y) && decide (y ≤ end_year)
      | none => false
  | _ => false

/-- A calendar date. -/
structure Date where
  y : Int
  m : Int
  d : Int
deriving DecidableEq

/-- Chronological comparison of dates, lexicographic on year, month,
day. -/
def dateLe (a b : Date) : Bool :=
  decide (a.y < b.y ∨ (a.y = b.y ∧ (a.m < b.m ∨ (a.m = b.m ∧ a.d ≤ b.d))))

def isLeap (y : Int) : Bool :=
  y % 4 == 0 && (y % 100 != 0 || y % 400 == 0)

def daysInMonth (y m : Int) : Int :=
  if m == 2 then (if isLeap y then 29 else 28)
  else if m == 4 || m == 6 || m == 9 || m == 11 then 30
  else 31

def allDigits (cs : List Char) : Bool :=
  !cs.isEmpty && cs.all Char.isDigit

def digitsToNat (cs : List Char) : Nat :=
  cs.foldl (fun a c => a * 10 + (c.toNat - 48)) 0

/-- datetime.strptime with the year-month-day format: the year field is
exactly four digits, month and day one or two digits in range, and the
day must exist in the month (year at least 1). -/
def strptimeYMD (cs : List Char) : Option Date :=
  match splitOnDash cs with
  | [ys, ms, ds] =>
      if allDigits ys && decide (ys.length = 4) &&
         allDigits ms && decide (ms.length ≤ 2) &&
         allDigits ds && decide (ds.length ≤ 2) then
        let y : Int := digitsToNat ys
        let m : Int := digitsToNat ms
        let d : Int := digitsToNat ds
        if decide (1 ≤ y) && decide (1 ≤ m) && decide (m ≤ 12) &&
           decide (1 ≤ d) && decide (d ≤ daysInMonth y m) then
          some ⟨y, m, d⟩
        else none
      else none
  | _ => none

/-- The date block of parse_results_for_animation: a falsy cover-date
gives no date; a four-character string is completed with month and day
01, a seven-character string with day 01, any other string is parsed as
a full date; a truthy non-string either fails len (TypeError) or
formats into text that cannot parse (ValueError), both caught, so it
also gives no date. -/
def resolveDate (dv : Value) : Option Date :=
  if dv.truthy then
    match dv with
    | .str s =>
        if decide (s.toList.length = 4) then strptimeYMD (s.toList ++ "-01-01".toList)
        else if decide (s.toList.length = 7) then strptimeYMD (s.toList ++ "-01".toList)
        else strptimeYMD s.toList
    | _ => none
  else none

/-- parse_results_for_animation, country extraction (same shape
handling as the static path, country sub-field only). -/
def animEntryCountries (e : Entry) : List Value :=
  match lookupVal e "affiliation" with
  | some (.list xs) => xs.flatMap countriesOfAffil
  | some (.obj fs) => countriesOfAffil (.obj fs)
  | _ => []

/-- parse_results_for_animation, author extraction before the creator
fallback. -/
def animAuthorsFound (e : Entry) : List Value × Bool :=
  match lookupVal e "author" with
  | some (.list xs) =>
      xs.foldl (fun p a =>
        match authnameOf a with
        | some v => (p.1 ++ [v], true)
        | none => p) ([], false)
  | some (.obj fs) =>
      match lookupVal fs "authname" with
      | some v => ([v], true)
      | none => ([], false)
  | _ => ([], false)

/-- parse_results_for_animation, author extraction with the creator
fallback. -/
def animEntryAuthors (e : Entry) : List Value :=
  let p := animAuthorsFound e
  if p.2 then p.1
  else
    match lookupVal e "dc:creator" with
    | some (.str s) => if s == "" then p.1 else p.1 ++ [.str s]
    | _ => p.1

/-- parse_results_for_animation, per-article unique words: keywords are
guarded by a membership test, title and description read with a get
defaulting to the empty string. -/
def animEntryWords (e : Entry) : Except PyErr (List String) :=
  match kwStep e with
  | .error err => .error err
  | .ok a1 =>
      match textFieldWords (getVal e "dc:title") a1 with
      | .error err => .error err
      | .ok a2 => textFieldWords (getVal e "dc:description") a2

/-- list(set(xs)) on values: raises TypeError when an element is
unhashable, and otherwise keeps one copy of each distinct element. -/
def pySetList (xs : List Value) : Except PyErr (List Value) :=
  if xs.all Value.hashable then .ok xs.dedup else .error .typeError

/-- One temporal record: resolved date plus per-record deduplicated
countries, authors and words. -/
structure TRecord where
  date : Date
  countries : List Value
  authors : List Value
  words : List String
deriving DecidableEq

/-- The record loop of parse_results_for_animation: records without a
resolvable date are skipped entirely; for the rest, words are extracted
(the keyword split can raise AttributeError) and countries and authors
are deduplicated through set (which can raise TypeError). -/
def parseAnimRows : List Entry → Except PyErr (List TRecord)
  | [] => .ok []
  | e :: es =>
      match resolveDate (getVal e "prism:coverDate") with
      | none => parseAnimRows es
      | some dt =>
          match animEntryWords e with
          | .error err => .error err
          | .ok ws =>
              match pySetList (animEntryCountries e) with
              | .error err => .error err
              | .ok cs =>
                  match pySetList (animEntryAuthors e) with
                  | .error err => .error err
                  | .ok aus =>
                      match parseAnimRows es with
                      | .error err => .error err
                      | .ok rest => .ok (TRecord.mk dt cs aus ws :: rest)

def insertByDate (r : TRecord) : List TRecord → List TRecord
  | [] => [r]
  | x :: xs => if dateLe r.date x.date then r :: x :: xs else x :: insertByDate r xs

def sortByDate : List TRecord → List TRecord
  | [] => []
  | r :: rs => insertByDate r (sortByDate rs)

/-- The temporal dataset builder of src/utils/animations.py: the row
loop followed by the ascending sort on dates. -/
def parse_results_for_animation (entries : List Entry) : Except PyErr (List TRecord) :=
  (parseAnimRows entries).map sortByDate

/-- Absolute month index of a date. -/
def monthIdx (dt : Date) : Int :=
  dt.y * 12 + (dt.m - 1)

/-- First day of the month with the given absolute index; the window
start of prepare_rolling_data after its replace with day 1. -/
def firstOfMonth (i : Int) : Date :=
  Date.mk (i / 12) (i % 12 + 1) 1

/-- Last day of the month with the given absolute index; the month-end
anchor timestamps of the pandas date range. -/
def monthEndDate (i : Int) : Date :=
  Date.mk (i / 12) (i % 12 + 1) (daysInMonth (i / 12) (i % 12 + 1))

/-- The records of the rolling window of w months ending at anchor
month a: the filter of prepare_rolling_data with both bounds
inclusive. -/
def windowRecords (df : List TRecord) (w a : Int) : List TRecord :=
  df.filter (fun r =>
    dateLe (firstOfMonth (a - (w - 1))) r.date && dateLe r.date (monthEndDate a))

/-- Stable insertion into a list sorted by count descending. -/
def insertDesc {α : Type} (p : α × Nat) : List (α × Nat) → List (α × Nat)
  | [] => [p]
  | q :: qs => if q.2 ≤ p.2 then p :: q :: qs else q :: insertDesc p qs

def sortDescByCount {α : Type} : List (α × Nat) → List (α × Nat)
  | [] => []
  | p :: ps => insertDesc p (sortDescByCount ps)

/-- value_counts: one row per distinct key with its occurrence count,
sorted by count descending (the claims below do not depend on the order
among equal counts). -/
def valueCounts {α : Type} [DecidableEq α] (xs : List α) : List (α × Nat) :=
  sortDescByCount (xs.dedup.map (fun k => (k, xs.count k)))

/-- The flattened truthy country occurrences of a window. -/
def countryOccs (df : List TRecord) (w a : Int) : List Value :=
  (windowRecords df w a).flatMap (fun r => r.countries.filter Value.truthy)

/-- The flattened truthy author occurrences of a window. -/
def authorOccs (df : List TRecord) (w a : Int) : List Value :=
  (windowRecords df w a).flatMap (fun r => r.authors.filter Value.truthy)

/-- The flattened non-empty word occurrences of a window. -/
def wordOccs (df : List TRecord) (w a : Int) : List String :=
  (windowRecords df w a).flatMap (fun r => r.words.filter (fun s => !(s == "")))

/-- The per-anchor country table of prepare_rolling_data: every country
with its count. -/
def countryFrame (df : List TRecord) (w a : Int) : List (Value × Nat) :=
  valueCounts (countryOccs df w a)

/-- The per-anchor author table: the 25 largest counts. -/
def authorFrame (df : List TRecord) (w a : Int) : List (Value × Nat) :=
  (valueCounts (authorOccs df w a)).take 25

/-- The per-anchor word frequencies: the 100 largest counts. -/
def wordFrame (df : List TRecord) (w a : Int) : List (String × Nat) :=
  (valueCounts (wordOccs df w a)).take 100

/-- src/utils/animations.py calculate_max_window: 6 on an empty
dataset, else 1 when the whole-month difference between the earliest
and latest dates is at most 1, else that difference capped at 24. -/
def calculate_max_window (df : List TRecord) : Int :=
  match df.map (fun r => r.date) with
  | [] => 6
  | dt :: ds =>
      let dmin := ds.foldl (fun a b => if dateLe b a then b else a) dt
      let dmax := ds.foldl (fun a b => if dateLe a b then b else a) dt
      let monthsDiff := (dmax.y - dmin.y) * 12 + (dmax.m - dmin.m)
      if monthsDiff ≤ 1 then 1 else min 24 monthsDiff

theorem dateLe_refl (a : Date) : dateLe a a = true := by
  simp [dateLe]

theorem dateLe_trans {a b c : Date} (h1 : dateLe a b = true) (h2 : dateLe b c = true) :
    dateLe a c = true := by
  simp only [dateLe, decide_eq_true_eq] at h1 h2 ⊢
  omega

theorem dateLe_total {a b : Date} (h : ¬ dateLe a b = true) : dateLe b a = true := by
  simp only [dateLe, decide_eq_true_eq] at h ⊢
  omega

theorem dateLe_antisymm {a b : Date} (h1 : dateLe a b = true) (h2 : dateLe b a = true) :
    a = b := by
  cases a
  cases b
  simp only [dateLe, decide_eq_true_eq] at h1 h2
  simp only [Date.mk.injEq]
  omega

theorem firstOfMonth_mono {i j : Int} (h : i ≤ j) :
    dateLe (firstOfMonth i) (firstOfMonth j) = true := by
  simp only [dateLe, firstOfMonth, decide_eq_true_eq]
  omega

theorem mem_insertByDate {r x : TRecord} {l : List TRecord} :
    x ∈ insertByDate r l ↔ x = r ∨ x ∈ l := by
  induction l with
  | nil => simp [insertByDate]
  | cons b bs ih =>
      unfold insertByDate
      by_cases h : dateLe r.date b.date = true
      · rw [if_pos h]
        exact List.mem_cons
      · rw [if_neg h, List.mem_cons, ih, List.mem_cons]
        tauto

theorem perm_insertByDate (r : TRecord) (l : List TRecord) :
    (insertByDate r l).Perm (r :: l) := by
  induction l with
  | nil => simp [insertByDate]
  | cons b bs ih =>
      by_cases h : dateLe r.date b.date = true
      · simp [insertByDate, h]
      · simp only [insertByDate, h, if_neg]
        exact (ih.cons b).trans (List.Perm.swap r b bs)

theorem perm_sortByDate (l : List TRecord) : (sortByDate l).Perm l := by
  induction l with
  | nil => simp [sortByDate]
  | cons b bs ih =>
      exact ((perm_insertByDate b (sortByDate bs)).trans (ih.cons b))

theorem pairwise_insertByDate {r : TRecord} {l : List TRecord}
    (h : l.Pairwise (fun u v => dateLe u.date v.date = true)) :
    (insertByDate r l).Pairwise (fun u v => dateLe u.date v.date = true) := by
  induction l with
  | nil => simp [insertByDate]
  | cons b bs ih =>
      rcases List.pairwise_cons.1 h with ⟨hb, hbs⟩
      unfold insertByDate
      by_cases hle : dateLe r.date b.date = true
      · rw [if_pos hle]
        refine List.pairwise_cons.2 ⟨?_, h⟩
        intro z hz
        rcases List.mem_cons.1 hz with hz | hz
        · subst hz
          exact hle
        · exact dateLe_trans hle (hb z hz)
      · rw [if_neg hle]
        refine List.pairwise_cons.2 ⟨?_, ih hbs⟩
        intro z hz
        rcases mem_insertByDate.1 hz with hz | hz
        · subst hz
          exact dateLe_total hle
        · exact hb z hz

theorem pairwise_sortByDate (l : List TRecord) :
    (sortByDate l).Pairwise (fun u v => dateLe u.date v.date = true) := by
  induction l with
  | nil => simp [sortByDate]
  | cons b bs ih => exact pairwise_insertByDate ih

theorem mem_insertDesc {α : Type} {p q : α × Nat} {l : List (α × Nat)} :
    q ∈ insertDesc p l ↔ q = p ∨ q ∈ l := by
  induction l with
  | nil => simp [insertDesc]
  | cons b bs ih =>
      unfold insertDesc
      by_cases h : b.2 ≤ p.2
      · rw [if_pos h]
        exact List.mem_cons
      · rw [if_neg h, List.mem_cons, ih, List.mem_cons]
        tauto

theorem mem_sortDescByCount {α : Type} {q : α × Nat} {l : List (α × Nat)} :
    q ∈ sortDescByCount l ↔ q ∈ l := by
  induction l with
  | nil => simp [sortDescByCount]
  | cons b bs ih =>
      simp [sortDescByCount, mem_insertDesc, ih]

theorem mem_valueCounts {α : Type} [DecidableEq α] {k : α} {c : Nat} {xs : List α}
    (h : (k, c) ∈ valueCounts xs) : c = xs.count k ∧ k ∈ xs := by
  rw [valueCounts, mem_sortDescByCount] at h
  rcases List.mem_map.1 h with ⟨k0, hk0, heq⟩
  rcases Prod.mk.injEq _ _ _ _ ▸ heq with ⟨h1, h2⟩
  constructor
  · rw [← h1]
    exact h2.symm
  · rw [← h1]
    exact List.mem_dedup.1 hk0

theorem sublist_flatMap {α β : Type} (f : α → List β) {l1 l2 : List α}
    (h : l1.Sublist l2) : (l1.flatMap f).Sublist (l2.flatMap f) := by
  induction h with
  | slnil => simp
  | cons a h ih =>
      simp only [List.flatMap_cons]
      exact ih.trans (List.sublist_append_right _ _)
  | cons₂ a h ih =>
      simp only [List.flatMap_cons]
      exact ih.append_left _

theorem windowRecords_sublist (df : List TRecord) {w1 w2 : Int} (a : Int)
    (h : w1 ≤ w2) : (windowRecords df w1 a).Sublist (windowRecords df w2 a) := by
  apply List.monotone_filter_right
  intro r hr
  rcases Bool.and_eq_true _ _ ▸ hr with ⟨h1, h2⟩
  refine Bool.and_eq_true _ _ ▸ ⟨?_, h2⟩
  exact dateLe_trans (firstOfMonth_mono (by omega)) h1


theorem toList_mk (cs : List Char) : (String.mk cs).toList = cs := rfl

/-- The field shapes under which the text-field accesses of the word
extraction cannot raise: absent (the None default), falsy, or a
string. -/
def strOrFalsy (v : Value) : Bool :=
  !v.truthy ||
  (match v with
   | .str _ => true
   | _ => false)

/-- The keywords, title and description fields of a record are each
absent, falsy, or a string. -/
def textFieldsOk (e : Entry) : Bool :=
  strOrFalsy (getVal e "authkeywords") && strOrFalsy (getVal e "dc:title") &&
  strOrFalsy (getVal e "dc:description")

theorem keywordWords_ok {v : Value} (h : strOrFalsy v = true) (acc : List String) :
    ∃ l, keywordWords v acc = .ok l := by
  unfold keywordWords
  by_cases ht : v.truthy = true
  · have hs : ∃ s, v = Value.str s := by
      cases v <;> simp_all [strOrFalsy]
    rcases hs with ⟨s, rfl⟩
    rw [if_pos ht]
    exact ⟨_, rfl⟩
  · rw [if_neg ht]
    exact ⟨_, rfl⟩

theorem textFieldWords_ok {v : Value} (h : strOrFalsy v = true) (acc : List String) :
    ∃ l, textFieldWords v acc = .ok l := by
  unfold textFieldWords
  by_cases ht : v.truthy = true
  · have hs : ∃ s, v = Value.str s := by
      cases v <;> simp_all [strOrFalsy]
    rcases hs with ⟨s, rfl⟩
    rw [if_pos ht]
    exact ⟨_, rfl⟩
  · rw [if_neg ht]
    exact ⟨_, rfl⟩

theorem kwStep_ok {e : Entry} (h : strOrFalsy (getVal e "authkeywords") = true) :
    ∃ l, kwStep e = .ok l := by
  unfold kwStep
  cases hk : lookupVal e "authkeywords" with
  | none => exact ⟨[], rfl⟩
  | some v =>
      apply keywordWords_ok
      simpa [getVal, hk] using h

theorem titleStep_ok {e : Entry} (h : strOrFalsy (getVal e "dc:title") = true)
    (acc : List String) : ∃ l, titleStep e acc = .ok l := by
  unfold titleStep
  cases hk : lookupVal e "dc:title" with
  | none => exact ⟨acc, rfl⟩
  | some v =>
      apply textFieldWords_ok
      simpa [getVal, hk] using h

theorem descStep_ok {e : Entry} (h : strOrFalsy (getVal e "dc:description") = true)
    (acc : List String) : ∃ l, descStep e acc = .ok l := by
  unfold descStep
  cases hk : lookupVal e "dc:description" with
  | none => exact ⟨acc, rfl⟩
  | some v =>
      apply textFieldWords_ok
      simpa [getVal, hk] using h

theorem entryWordSet_ok {e : Entry} (h : textFieldsOk e = true) :
    ∃ l, entryWordSet e = .ok l := by
  have h12 := (Bool.and_eq_true _ _ ▸ h).1
  have h3 := (Bool.and_eq_true _ _ ▸ h).2
  have h1 := (Bool.and_eq_true _ _ ▸ h12).1
  have h2 := (Bool.and_eq_true _ _ ▸ h12).2
  unfold entryWordSet
  rcases kwStep_ok h1 with ⟨l1, hl1⟩
  rw [hl1]
  dsimp only
  rcases titleStep_ok h2 l1 with ⟨l2, hl2⟩
  rw [hl2]
  dsimp only
  exact descStep_ok h3 l2

theorem animEntryWords_ok {e : Entry} (h : textFieldsOk e = true) :
    ∃ l, animEntryWords e = .ok l := by
  have h12 := (Bool.and_eq_true _ _ ▸ h).1
  have h3 := (Bool.and_eq_true _ _ ▸ h).2
  have h1 := (Bool.and_eq_true _ _ ▸ h12).1
  have h2 := (Bool.and_eq_true _ _ ▸ h12).2
  unfold animEntryWords
  rcases kwStep_ok h1 with ⟨l1, hl1⟩
  rw [hl1]
  dsimp only
  rcases textFieldWords_ok h2 l1 with ⟨l2, hl2⟩
  rw [hl2]
  dsimp only
  exact textFieldWords_ok h3 l2

theorem nodup_foldl_kwstep (pieces : List (List Char)) :
    ∀ acc : List String, acc.Nodup →
    (pieces.foldl (fun a kw =>
      let ck := String.mk (lowerChars (stripChars kw))
      if ck == "" then a else insertUnique a ck) acc).Nodup := by
  induction pieces with
  | nil => intro acc h; simpa using h
  | cons p ps ih =>
      intro acc h
      rw [List.foldl_cons]
      apply ih
      dsimp only
      split
      · exact h
      · exact nodup_insertUnique h _

theorem keywordWords_nodup {v : Value} {acc l : List String}
    (h : keywordWords v acc = .ok l) (hacc : acc.Nodup) : l.Nodup := by
  unfold keywordWords at h
  rcases hm : (if v.truthy = true then v else Value.str "") with _ | s | n | xs | fs <;>
      rw [hm] at h
  case str =>
    have hx : _ = l := Except.ok.injEq _ _ ▸ h
    rw [← hx]
    exact nodup_foldl_kwstep _ acc hacc
  all_goals exact absurd h (by simp)

theorem textFieldWords_nodup {v : Value} {acc l : List String}
    (h : textFieldWords v acc = .ok l) (hacc : acc.Nodup) : l.Nodup := by
  unfold textFieldWords at h
  rcases hm : (if v.truthy = true then v else Value.str "") with _ | s | n | xs | fs <;>
      rw [hm] at h
  case str =>
    have hx : _ = l := Except.ok.injEq _ _ ▸ h
    rw [← hx]
    exact nodup_foldl_insertUnique _ acc hacc
  all_goals exact absurd h (by simp)

theorem kwStep_nodup {e : Entry} {l : List String} (h : kwStep e = .ok l) : l.Nodup := by
  unfold kwStep at h
  cases hk : lookupVal e "authkeywords" with
  | none =>
      rw [hk] at h
      have hx : _ = l := Except.ok.injEq _ _ ▸ h
      rw [← hx]
      exact List.nodup_nil
  | some v =>
      rw [hk] at h
      exact keywordWords_nodup h List.nodup_nil

theorem animEntryWords_nodup {e : Entry} {ws : List String}
    (h : animEntryWords e = .ok ws) : ws.Nodup := by
  unfold animEntryWords at h
  rcases hm1 : kwStep e with err | l1 <;> rw [hm1] at h <;> dsimp only at h
  · exact absurd h (by simp)
  · rcases hm2 : textFieldWords (getVal e "dc:title") l1 with err | l2 <;>
        rw [hm2] at h <;> dsimp only at h
    · exact absurd h (by simp)
    · exact textFieldWords_nodup h (textFieldWords_nodup hm2 (kwStep_nodup hm1))

theorem parse_resultsAux_proj : ∀ (es : List Entry) (st out : ParseOut),
    parse_resultsAux es st = .ok out →
    out.orgs = st.orgs ++ es.flatMap entryOrgs ∧
    out.authors = st.authors ++ es.flatMap entryAuthors := by
  intro es
  induction es with
  | nil =>
      intro st out h
      unfold parse_resultsAux at h
      have hx : st = out := Except.ok.injEq _ _ ▸ h
      subst hx
      simp
  | cons e es ih =>
      intro st out h
      unfold parse_resultsAux at h
      rcases hw : entryWordSet e with err | ws <;> rw [hw] at h <;> dsimp only at h
      · exact absurd h (by simp)
      · rcases ih _ _ h with ⟨ho, ha⟩
        constructor <;> simp [ho, ha, List.flatMap_cons, List.append_assoc]

theorem parse_resultsAux_ok : ∀ (es : List Entry) (st : ParseOut),
    (∀ e ∈ es, textFieldsOk e = true) → ∃ out, parse_resultsAux es st = .ok out := by
  intro es
  induction es with
  | nil => intro st _; exact ⟨st, rfl⟩
  | cons e es ih =>
      intro st h
      unfold parse_resultsAux
      rcases entryWordSet_ok (h e (by simp)) with ⟨ws, hw⟩
      rw [hw]
      dsimp only
      exact ih _ (fun x hx => h x (by simp [hx]))

/-- Whether an affiliation element is a mapping that carries the
organization-name field. -/
def hasAffilName (a : Value) : Bool :=
  match a with
  | .obj fs => hasKey fs "affilname"
  | _ => false

/-- The number of affiliation elements of a record that are mappings
carrying the organization-name field. -/
def affilNameCount (e : Entry) : Nat :=
  match lookupVal e "affiliation" with
  | some (.list xs) => (xs.filter hasAffilName).length
  | some (.obj fs) => if hasKey fs "affilname" then 1 else 0
  | _ => 0

theorem orgsOfAffil_length (a : Value) :
    (orgsOfAffil a).length = if hasAffilName a then 1 else 0 := by
  cases a with
  | obj fs =>
      unfold orgsOfAffil hasAffilName hasKey
      cases h : lookupVal fs "affilname" <;> simp [h]
  | null => rfl
  | str s => rfl
  | num n => rfl
  | list xs => rfl

theorem flatMap_orgs_length (xs : List Value) :
    (xs.flatMap orgsOfAffil).length = (xs.filter hasAffilName).length := by
  induction xs with
  | nil => rfl
  | cons a xs ih =>
      rw [List.flatMap_cons, List.length_append, orgsOfAffil_length, ih, List.filter_cons]
      by_cases h : hasAffilName a = true <;> simp [h, Nat.add_comm]

theorem entryOrgs_length (e : Entry) : (entryOrgs e).length = affilNameCount e := by
  unfold entryOrgs affilNameCount
  cases h : lookupVal e "affiliation" with
  | none => rfl
  | some v =>
      cases v with
      | null => rfl
      | str s => rfl
      | num n => rfl
      | list xs => exact flatMap_orgs_length xs
      | obj fs =>
          rw [orgsOfAffil_length]
          rfl

/-- The author elements a record presents: a list as is, a single
mapping as a one-element list, anything else as nothing. -/
def authorElems (v : Value) : List Value :=
  match v with
  | .list xs => xs
  | .obj fs => [.obj fs]
  | _ => []

/-- Spec-side declarative author extraction (the amended reading): the
authname of every mapping-shaped author element, in order. -/
def structuredAuthnames (e : Entry) : List Value :=
  (authorElems (getVal e "author")).filterMap authnameOf

/-- Spec-side creator fallback: the creator field when it is a truthy
string. -/
def creatorFallback (e : Entry) : List Value :=
  match lookupVal e "dc:creator" with
  | some (.str s) => if s == "" then [] else [.str s]
  | _ => []

/-- Spec-side author extraction: the collected authnames, or the
creator fallback exactly when no authname was found. -/
def authorsSpec (e : Entry) : List Value :=
  if (structuredAuthnames e).isEmpty then creatorFallback e else structuredAuthnames e

theorem authorFold (xs : List Value) :
    ∀ (acc : List Value) (fl : Bool),
    xs.foldl (fun p a =>
      match authnameOf a with
      | some v => (p.1 ++ [v], true)
      | none => p) (acc, fl)
    = (acc ++ xs.filterMap authnameOf, fl || !(xs.filterMap authnameOf).isEmpty) := by
  induction xs with
  | nil => intro acc fl; simp
  | cons a xs ih =>
      intro acc fl
      cases ha : authnameOf a with
      | none =>
          simp only [List.foldl_cons, ha]
          rw [ih]
          simp [List.filterMap_cons, ha]
      | some v =>
          simp only [List.foldl_cons, ha]
          rw [ih]
          simp [List.filterMap_cons, ha, List.append_assoc]

theorem entryAuthorsFound_eq (e : Entry) :
    entryAuthorsFound e = (structuredAuthnames e, !(structuredAuthnames e).isEmpty) := by
  unfold entryAuthorsFound structuredAuthnames
  cases h : lookupVal e "author" with
  | none => simp [getVal, h, authorElems]
  | some v =>
      cases v with
      | null => simp [getVal, h, authorElems]
      | str s => simp [getVal, h, authorElems]
      | num n => simp [getVal, h, authorElems]
      | list xs =>
          dsimp only
          rw [authorFold]
          simp [getVal, h, authorElems]
      | obj fs =>
          cases ha : lookupVal fs "authname" with
          | none => simp [getVal, h, authorElems, authnameOf, ha]
          | some v0 => simp [getVal, h, authorElems, authnameOf, ha]

theorem entryAuthors_eq_spec (e : Entry) : entryAuthors e = authorsSpec e := by
  unfold entryAuthors authorsSpec
  rw [entryAuthorsFound_eq]
  by_cases hS : (structuredAuthnames e).isEmpty = true
  · have hnil : structuredAuthnames e = [] := by
      cases hx : structuredAuthnames e
      · rfl
      · rw [hx] at hS
        exact absurd hS (by simp)
    simp only [hS, Bool.not_true, if_false, if_pos, hnil]
    unfold creatorFallback
    cases hc : lookupVal e "dc:creator" with
    | none => rfl
    | some v =>
        cases v with
        | null => rfl
        | num n => rfl
        | list xs => rfl
        | obj fs => rfl
        | str s => by_cases hs : s == "" <;> simp [hs]
  · simp [hS]

theorem keepCode_eq_spec (ent : Entry) (s e : Int) :
    keepCode ent s e = keepBySpec ent s e := by
  unfold keepCode keepBySpec getVal
  cases h : lookupVal ent "prism:coverDate" with
  | none => rfl
  | some v =>
      cases v with
      | null => rfl
      | num n =>
          have hb : periodTryBody (Value.num n) s e = .error .typeError := rfl
          simp [hb]
      | list xs =>
          have hb : periodTryBody (Value.list xs) s e = .error .typeError := rfl
          simp [hb]
      | obj fs =>
          have hb : periodTryBody (Value.obj fs) s e = .error .typeError := rfl
          simp [hb]
      | str s0 =>
          by_cases hs : s0 = ""
          · subst hs
            rfl
          · have ht : (Value.str s0).truthy = true := by simp [Value.truthy, hs]
            rw [Option.getD_some, if_pos ht]
            dsimp only [periodTryBody, pySliceTo4, pyIntOfValue, pyIntOfString, String.toList]
            cases hp : pyIntChars (List.take 4 s0.data) <;> rfl

theorem filter_by_period_eq (entries : List Entry) (s e : Int) :
    filter_by_period entries s e = entries.filter (fun ent => keepBySpec ent s e) := by
  induction entries with
  | nil => rfl
  | cons ent rest ih =>
      unfold filter_by_period
      rw [keepCode_eq_spec, List.filter_cons, ih]

theorem pySetList_nodup {xs l : List Value} (h : pySetList xs = .ok l) : l.Nodup := by
  unfold pySetList at h
  split at h
  · have hx : _ = l := Except.ok.injEq _ _ ▸ h
    rw [← hx]
    exact List.nodup_dedup xs
  · exact absurd h (by simp)

theorem parseAnimRows_dates : ∀ (entries : List Entry) (rows : List TRecord),
    parseAnimRows entries = .ok rows →
    rows.map (fun r => r.date) =
      entries.filterMap (fun e => resolveDate (getVal e "prism:coverDate")) := by
  intro entries
  induction entries with
  | nil =>
      intro rows h
      unfold parseAnimRows at h
      have hx : ([] : List TRecord) = rows := Except.ok.injEq _ _ ▸ h
      rw [← hx]
      rfl
  | cons e es ih =>
      intro rows h
      unfold parseAnimRows at h
      cases hd : resolveDate (getVal e "prism:coverDate") with
      | none =>
          rw [hd] at h
          dsimp only at h
          simp [List.filterMap_cons, hd, ih rows h]
      | some dt =>
          rw [hd] at h
          dsimp only at h
          rcases hw : animEntryWords e with err | ws <;> rw [hw] at h <;> dsimp only at h
          · exact absurd h (by simp)
          rcases hc : pySetList (animEntryCountries e) with err | cs <;>
              rw [hc] at h <;> dsimp only at h
          · exact absurd h (by simp)
          rcases ha : pySetList (animEntryAuthors e) with err | aus <;>
              rw [ha] at h <;> dsimp only at h
          · exact absurd h (by simp)
          rcases hr : parseAnimRows es with err | rest <;>
              rw [hr] at h <;> dsimp only at h
          · exact absurd h (by simp)
          have hx : _ = rows := Except.ok.injEq _ _ ▸ h
          rw [← hx]
          simp [List.filterMap_cons, hd, ih rest hr]

theorem parseAnimRows_nodup : ∀ (entries : List Entry) (rows : List TRecord),
    parseAnimRows entries = .ok rows →
    ∀ r ∈ rows, r.countries.Nodup ∧ r.authors.Nodup ∧ r.words.Nodup := by
  intro entries
  induction entries with
  | nil =>
      intro rows h
      unfold parseAnimRows at h
      have hx : ([] : List TRecord) = rows := Except.ok.injEq _ _ ▸ h
      rw [← hx]
      intro r hr
      exact absurd hr (by simp)
  | cons e es ih =>
      intro rows h
      unfold parseAnimRows at h
      cases hd : resolveDate (getVal e "prism:coverDate") with
      | none =>
          rw [hd] at h
          dsimp only at h
          exact ih rows h
      | some dt =>
          rw [hd] at h
          dsimp only at h
          rcases hw : animEntryWords e with err | ws <;> rw [hw] at h <;> dsimp only at h
          · exact absurd h (by simp)
          rcases hc : pySetList (animEntryCountries e) with err | cs <;>
              rw [hc] at h <;> dsimp only at h
          · exact absurd h (by simp)
          rcases ha : pySetList (animEntryAuthors e) with err | aus <;>
              rw [ha] at h <;> dsimp only at h
          · exact absurd h (by simp)
          rcases hr : parseAnimRows es with err | rest <;>
              rw [hr] at h <;> dsimp only at h
          · exact absurd h (by simp)
          have hx : _ = rows := Except.ok.injEq _ _ ▸ h
          rw [← hx]
          intro r hmem
          rcases List.mem_cons.1 hmem with hrr | hrr
          · subst hrr
            exact ⟨pySetList_nodup hc, pySetList_nodup ha, animEntryWords_nodup hw⟩
          · exact ih rest hr r hrr

theorem parseAnimRows_ok : ∀ entries : List Entry,
    (∀ e ∈ entries, textFieldsOk e = true ∧
       (animEntryCountries e).all Value.hashable = true ∧
       (animEntryAuthors e).all Value.hashable = true) →
    ∃ rows, parseAnimRows entries = .ok rows := by
  intro entries
  induction entries with
  | nil => intro _; exact ⟨[], rfl⟩
  | cons e es ih =>
      intro h
      rcases h e (by simp) with ⟨hw, hc, ha⟩
      have htail : ∃ rows, parseAnimRows es = .ok rows :=
        ih (fun x hx => h x (by simp [hx]))
      unfold parseAnimRows
      cases hd : resolveDate (getVal e "prism:coverDate") with
      | none => exact htail
      | some dt =>
          dsimp only
          rcases animEntryWords_ok hw with ⟨ws, hws⟩
          rw [hws]
          dsimp only
          rw [pySetList, if_pos hc]
          dsimp only
          rw [pySetList, if_pos ha]
          dsimp only
          rcases htail with ⟨rows, hrows⟩
          rw [hrows]
          exact ⟨_, rfl⟩

theorem count_flatMap_le {β : Type} [DecidableEq β] (g : TRecord → List β) (k : β) :
    ∀ ws : List TRecord, (∀ r ∈ ws, (g r).Nodup) → (ws.flatMap g).count k ≤ ws.length := by
  intro ws
  induction ws with
  | nil => intro _; simp
  | cons r rs ih =>
      intro h
      rw [List.flatMap_cons, List.count_append]
      have h1 : (g r).count k ≤ 1 :=
        List.nodup_iff_count_le_one.1 (h r (by simp)) k
      have h2 := ih (fun x hx => h x (by simp [hx]))
      simp only [List.length_cons]
      omega

theorem foldlMin_spec : ∀ (ds : List Date) (d : Date),
    (ds.foldl (fun a b => if dateLe b a then b else a) d) ∈ d :: ds ∧
    ∀ x ∈ d :: ds, dateLe (ds.foldl (fun a b => if dateLe b a then b else a) d) x = true := by
  intro ds
  induction ds with
  | nil =>
      intro d
      constructor
      · simp
      · intro x hx
        have hxd : x = d := by simpa using hx
        rw [hxd]
        exact dateLe_refl d
  | cons b ds ih =>
      intro d
      rw [List.foldl_cons]
      by_cases hbd : dateLe b d = true
      · rw [if_pos hbd]
        rcases ih b with ⟨hmem, hle⟩
        constructor
        · rcases List.mem_cons.1 hmem with h1 | h1 <;> simp [h1]
        · intro x hx
          rcases List.mem_cons.1 hx with h1 | h1
          · rw [h1]
            exact dateLe_trans (hle b (by simp)) hbd
          · exact hle x h1
      · rw [if_neg hbd]
        rcases ih d with ⟨hmem, hle⟩
        constructor
        · rcases List.mem_cons.1 hmem with h1 | h1 <;> simp [h1]
        · intro x hx
          rcases List.mem_cons.1 hx with h1 | h1
          · exact h1 ▸ hle d (by simp)
          · rcases List.mem_cons.1 h1 with h2 | h2
            · rw [h2]
              exact dateLe_trans (hle d (by simp)) (dateLe_total hbd)
            · exact hle x (by simp [h2])

theorem foldlMax_spec : ∀ (ds : List Date) (d : Date),
    (ds.foldl (fun a b => if dateLe a b then b else a) d) ∈ d :: ds ∧
    ∀ x ∈ d :: ds, dateLe x (ds.foldl (fun a b => if dateLe a b then b else a) d) = true := by
  intro ds
  induction ds with
  | nil =>
      intro d
      constructor
      · simp
      · intro x hx
        have hxd : x = d := by simpa using hx
        rw [hxd]
        exact dateLe_refl d
  | cons b ds ih =>
      intro d
      rw [List.foldl_cons]
      by_cases hdb : dateLe d b = true
      · rw [if_pos hdb]
        rcases ih b with ⟨hmem, hle⟩
        constructor
        · rcases List.mem_cons.1 hmem with h1 | h1 <;> simp [h1]
        · intro x hx
          rcases List.mem_cons.1 hx with h1 | h1
          · rw [h1]
            exact dateLe_trans hdb (hle b (by simp))
          · exact hle x h1
      · rw [if_neg hdb]
        rcases ih d with ⟨hmem, hle⟩
        constructor
        · rcases List.mem_cons.1 hmem with h1 | h1 <;> simp [h1]
        · intro x hx
          rcases List.mem_cons.1 hx with h1 | h1
          · exact h1 ▸ hle d (by simp)
          · rcases List.mem_cons.1 h1 with h2 | h2
            · rw [h2]
              exact dateLe_trans (dateLe_total hdb) (hle d (by simp))
            · exact hle x (by simp [h2])

theorem splitOnDashAux_cons_ne {c : Char} (h : ¬ c = '-') (cs acc : List Char) :
    splitOnDashAux (c :: cs) acc = splitOnDashAux cs (c :: acc) := by
  simp only [splitOnDashAux]
  rw [if_neg h]

theorem splitOnDashAux_no_dash : ∀ (cs : List Char), '-' ∉ cs → ∀ acc,
    splitOnDashAux cs acc = [acc.reverse ++ cs] := by
  intro cs
  induction cs with
  | nil =>
      intro _ acc
      simp [splitOnDashAux]
  | cons c cs ih =>
      intro h acc
      have hc : ¬ c = '-' := fun hh => h (by simp [hh])
      have hcs : '-' ∉ cs := fun hh => h (by simp [hh])
      rw [splitOnDashAux_cons_ne hc, ih hcs]
      simp

theorem splitOnDashAux_append : ∀ (ys : List Char), '-' ∉ ys → ∀ (t acc : List Char),
    splitOnDashAux (ys ++ '-' :: t) acc = (acc.reverse ++ ys) :: splitOnDashAux t [] := by
  intro ys
  induction ys with
  | nil =>
      intro _ t acc
      simp [splitOnDashAux]
  | cons c ys ih =>
      intro h t acc
      have hc : ¬ c = '-' := fun hh => h (by simp [hh])
      have hys : '-' ∉ ys := fun hh => h (by simp [hh])
      rw [List.cons_append, splitOnDashAux_cons_ne hc, ih hys t (c :: acc)]
      simp

theorem daysInMonth_ge (y m : Int) : 28 ≤ daysInMonth y m := by
  unfold daysInMonth
  split
  · split <;> omega
  · split <;> omega

theorem no_dash_of_allDigits {cs : List Char} (h : allDigits cs = true) : '-' ∉ cs := by
  intro hmem
  have hall := (Bool.and_eq_true _ _ ▸ h).2
  have hdig := List.all_eq_true.1 hall '-' hmem
  exact absurd hdig (by decide)

theorem strptimeYMD_year (cs : List Char) (hd : allDigits cs = true)
    (hlen : cs.length = 4) (hy : 1 ≤ (digitsToNat cs : Int)) :
    strptimeYMD (cs ++ '-' :: '0' :: '1' :: '-' :: '0' :: '1' :: []) =
      some (Date.mk (digitsToNat cs) 1 1) := by
  have h1 : splitOnDash (cs ++ '-' :: '0' :: '1' :: '-' :: '0' :: '1' :: []) =
      [cs, ['0', '1'], ['0', '1']] := by
    unfold splitOnDash
    rw [splitOnDashAux_append cs (no_dash_of_allDigits hd)]
    rw [show splitOnDashAux ('0' :: '1' :: '-' :: '0' :: '1' :: []) ([] : List Char) =
        [['0', '1'], ['0', '1']] from rfl]
    simp
  unfold strptimeYMD
  rw [h1]
  dsimp only
  have c1 : (allDigits cs && decide (cs.length = 4) &&
      allDigits ['0', '1'] && decide (List.length ['0', '1'] ≤ 2) &&
      allDigits ['0', '1'] && decide (List.length ['0', '1'] ≤ 2)) = true := by
    rw [hd, hlen]
    decide
  rw [if_pos c1]
  have c2 : (decide (1 ≤ (digitsToNat cs : Int)) &&
      decide ((1 : Int) ≤ (digitsToNat ['0', '1'] : Int)) &&
      decide ((digitsToNat ['0', '1'] : Int) ≤ 12) &&
      decide ((1 : Int) ≤ (digitsToNat ['0', '1'] : Int)) &&
      decide ((digitsToNat ['0', '1'] : Int) ≤
        daysInMonth (digitsToNat cs) (digitsToNat ['0', '1']))) = true := by
    have h28 := daysInMonth_ge ((digitsToNat cs : Int)) ((digitsToNat ['0', '1'] : Int))
    have hv : (digitsToNat ['0', '1'] : Int) = 1 := rfl
    simp only [Bool.and_eq_true, decide_eq_true_eq]
    refine ⟨⟨⟨⟨hy, by decide⟩, by decide⟩, by decide⟩, by omega⟩
  rw [if_pos c2]
  rfl

theorem strptimeYMD_year_month (ys ms : List Char) (hdy : allDigits ys = true)
    (hly : ys.length = 4) (hdm : allDigits ms = true) (hlm : ms.length = 2)
    (hy : 1 ≤ (digitsToNat ys : Int)) (hm1 : 1 ≤ (digitsToNat ms : Int))
    (hm2 : (digitsToNat ms : Int) ≤ 12) :
    strptimeYMD (ys ++ '-' :: (ms ++ '-' :: '0' :: '1' :: [])) =
      some (Date.mk (digitsToNat ys) (digitsToNat ms) 1) := by
  have h1 : splitOnDash (ys ++ '-' :: (ms ++ '-' :: '0' :: '1' :: [])) =
      [ys, ms, ['0', '1']] := by
    unfold splitOnDash
    rw [splitOnDashAux_append ys (no_dash_of_allDigits hdy)]
    rw [splitOnDashAux_append ms (no_dash_of_allDigits hdm)]
    rw [show splitOnDashAux ('0' :: '1' :: []) ([] : List Char) = [['0', '1']] from rfl]
    simp
  unfold strptimeYMD
  rw [h1]
  dsimp only
  have c1 : (allDigits ys && decide (ys.length = 4) &&
      allDigits ms && decide (ms.length ≤ 2) &&
      allDigits ['0', '1'] && decide (List.length ['0', '1'] ≤ 2)) = true := by
    rw [hdy, hly, hdm, hlm]
    decide
  rw [if_pos c1]
  have c2 : (decide (1 ≤ (digitsToNat ys : Int)) &&
      decide ((1 : Int) ≤ (digitsToNat ms : Int)) &&
      decide ((digitsToNat ms : Int) ≤ 12) &&
      decide ((1 : Int) ≤ (digitsToNat ['0', '1'] : Int)) &&
      decide ((digitsToNat ['0', '1'] : Int) ≤
        daysInMonth (digitsToNat ys) (digitsToNat ms))) = true := by
    have h28 := daysInMonth_ge ((digitsToNat ys : Int)) ((digitsToNat ms : Int))
    have hv : (digitsToNat ['0', '1'] : Int) = 1 := rfl
    simp only [Bool.and_eq_true, decide_eq_true_eq]
    refine ⟨⟨⟨⟨hy, hm1⟩, hm2⟩, by decide⟩, by omega⟩
  rw [if_pos c2]
  rfl

theorem resolveDate_year (cs : List Char) (hd : allDigits cs = true)
    (hlen : cs.length = 4) (hy : 1 ≤ (digitsToNat cs : Int)) :
    resolveDate (Value.str (String.mk cs)) = some (Date.mk (digitsToNat cs) 1 1) := by
  have hne : (String.mk cs == "") = false := by
    apply beq_eq_false_iff_ne.2
    intro hh
    have h0 : cs = [] := by simpa using congrArg String.data hh
    rw [h0] at hlen
    simp at hlen
  have ht : (Value.str (String.mk cs)).truthy = true := by
    simp [Value.truthy, hne]
  unfold resolveDate
  rw [if_pos ht]
  dsimp only [String.toList]
  rw [if_pos (show decide (cs.length = 4) = true by rw [hlen]; decide)]
  exact strptimeYMD_year cs hd hlen hy

theorem resolveDate_year_month (ys ms : List Char) (hdy : allDigits ys = true)
    (hly : ys.length = 4) (hdm : allDigits ms = true) (hlm : ms.length = 2)
    (hy : 1 ≤ (digitsToNat ys : Int)) (hm1 : 1 ≤ (digitsToNat ms : Int))
    (hm2 : (digitsToNat ms : Int) ≤ 12) :
    resolveDate (Value.str (String.mk (ys ++ '-' :: ms))) =
      some (Date.mk (digitsToNat ys) (digitsToNat ms) 1) := by
  have hlen7 : (ys ++ '-' :: ms).length = 7 := by
    simp [List.length_append, hly, hlm]
  have hne : (String.mk (ys ++ '-' :: ms) == "") = false := by
    apply beq_eq_false_iff_ne.2
    intro hh
    have h0 : ys ++ '-' :: ms = [] := by simpa using congrArg String.data hh
    rw [h0] at hlen7
    simp at hlen7
  have ht : (Value.str (String.mk (ys ++ '-' :: ms))).truthy = true := by
    simp [Value.truthy, hne]
  unfold resolveDate
  rw [if_pos ht]
  dsimp only [String.toList]
  rw [if_neg (show ¬ decide ((ys ++ '-' :: ms).length = 4) = true by rw [hlen7]; decide)]
  rw [if_pos (show decide ((ys ++ '-' :: ms).length = 7) = true by rw [hlen7]; decide)]
  have hassoc : ((ys ++ '-' :: ms) ++ ('-' :: '0' :: '1' :: []) : List Char) =
      ys ++ '-' :: (ms ++ '-' :: '0' :: '1' :: []) := by
    simp
  rw [hassoc]
  exact strptimeYMD_year_month ys ms hdy hly hdm hlm hy hm1 hm2

theorem flatMap_entryOrgs_length (es : List Entry) :
    (es.flatMap entryOrgs).length = (es.map affilNameCount).sum := by
  induction es with
  | nil => rfl
  | cons e es ih =>
      simp [List.flatMap_cons, List.length_append, entryOrgs_length, ih]

/-- Claim C1, counterexample: on a one-record sequence whose keywords
field is a non-empty list of strings, parse_results raises
AttributeError (the split attribute access on a list), so the record
normalizer does not tolerate every scalar-vs-list field combination. -/
theorem c1_counterexample :
    parse_results [[("authkeywords", Value.list [Value.str "AI", Value.str "ML"])]] =
      Except.error PyErr.attributeError := by decide

/-- Claim C1, amended: for every record sequence in which each record's
keywords, title and description fields are absent, falsy (None or empty
included) or strings, parse_results returns a fact tuple without
raising, whatever the shape of every other field; a truthy non-string
in one of those three text fields is the only way it can raise. -/
theorem c1_amended (entries : List Entry)
    (h : ∀ e ∈ entries, textFieldsOk e = true) :
    ∃ out, parse_results entries = .ok out :=
  parse_resultsAux_ok entries _ h

theorem c1_witness :
    ∃ out, parse_results
      [[("authkeywords", Value.str "AI | ML"), ("dc:title", Value.null),
        ("affiliation", Value.list [Value.num 3, Value.obj []]),
        ("author", Value.obj [("authname", Value.str "X")]),
        ("prism:coverDate", Value.str "2020-01-01")],
       [("dc:description", Value.num 0), ("author", Value.str "odd"),
        ("affiliation", Value.str "odd"), ("prism:coverDate", Value.num 7)]] =
      .ok out :=
  c1_amended _ (by decide)

/-- Claim C2, counterexample: a record whose affiliation list holds one
mapping without the organization-name field yields an empty
organizations sequence, not a one-element sequence holding the literal
string Unknown, so the claimed length equation and Unknown placeholder
do not hold on the code. -/
theorem c2_counterexample :
    ¬ ((parse_results [[("affiliation", Value.list [Value.obj []])]]).map
        (fun out => out.orgs.length) = Except.ok 1) := by decide

/-- Claim C2, amended: for every record sequence, the organizations
sequence of parse_results has length equal to the total number of
affiliation entries that are mappings carrying the organization-name
field; an affiliation entry missing that sub-field (or not shaped as a
mapping) contributes nothing, and no Unknown placeholder is ever
produced. -/
theorem c2_amended (entries : List Entry) (out : ParseOut)
    (h : parse_results entries = .ok out) :
    out.orgs.length = (entries.map affilNameCount).sum := by
  have hp := (parse_resultsAux_proj entries _ _ h).1
  rw [hp]
  simpa using flatMap_entryOrgs_length entries

theorem c2_witness :
    (ParseOut.mk [] [Value.str "MIT"] [] [] []).orgs.length =
      ([[("affiliation",
          Value.list [Value.obj [("affilname", Value.str "MIT")], Value.obj []])]].map
        affilNameCount).sum :=
  c2_amended _ _ (by decide)

/-- Claim C3, counterexample: in the temporal path a record carrying
the keywords field as the list of strings AI, ML makes
parse_results_for_animation raise AttributeError rather than produce
the word set of the pipe-delimited string form. -/
theorem c3_counterexample :
    parse_results_for_animation
      [[("prism:coverDate", Value.str "2020"),
        ("authkeywords", Value.list [Value.str "AI", Value.str "ML"])]] =
      Except.error PyErr.attributeError := by decide

/-- Claim C3, amended: the string form of the keywords field is split
on the literal three-character pipe delimiter and lowercased, so the
record with the string AI pipe ML yields the per-record word list ai,
ml; the list form, however, is not handled element-wise but raises, so
the two shapes are not interchangeable. -/
theorem c3_amended :
    parse_results_for_animation
      [[("prism:coverDate", Value.str "2020"),
        ("authkeywords", Value.str "AI | ML")]] =
      Except.ok [TRecord.mk (Date.mk 2020 1 1) [] [] ["ai", "ml"]] ∧
    parse_results_for_animation
      [[("prism:coverDate", Value.str "2020"),
        ("authkeywords", Value.list [Value.str "AI", Value.str "ML"])]] ≠
      parse_results_for_animation
      [[("prism:coverDate", Value.str "2020"),
        ("authkeywords", Value.str "AI | ML")]] := by
  constructor
  · decide
  · decide

/-- Claim C4, counterexample: an author entry carrying surname Smith
and given-name John but no display-name contributes nothing: the
authors output is empty, not the synthesized string Smith, John. -/
theorem c4_counterexample :
    (parse_results [[("author", Value.list [Value.obj
        [("surname", Value.str "Smith"), ("given-name", Value.str "John")]])]]).map
      (fun out => out.authors) = Except.ok ([] : List Value) ∧
    ([] : List Value) ≠ [Value.str "Smith, John"] := by
  constructor
  · decide
  · decide

/-- Claim C4, amended: author extraction takes the display-name field
of every mapping-shaped author entry, in order; an entry lacking it
(surname present or not) contributes nothing, with no synthesis from
surname and given-name; and the single-string creator field is used
exactly when no display-name was found in the author field, even if
other structured author data was present. -/
theorem c4_amended :
    (∀ e : Entry, entryAuthors e = authorsSpec e) ∧
    (∀ (entries : List Entry) (out : ParseOut), parse_results entries = .ok out →
      out.authors = entries.flatMap authorsSpec) := by
  constructor
  · exact entryAuthors_eq_spec
  · intro entries out h
    have hp := (parse_resultsAux_proj entries _ _ h).2
    rw [hp]
    have hfun : entryAuthors = authorsSpec := funext entryAuthors_eq_spec
    simp [hfun]

theorem c4_witness :
    (ParseOut.mk [] [] [] [] [Value.str "Doe J."]).authors =
      [[("author", Value.list [Value.obj [("surname", Value.str "Smith")]]),
        ("dc:creator", Value.str "Doe J.")]].flatMap authorsSpec :=
  c4_amended.2 _ _ (by decide)

/-- Claim C5: for a non-empty temporal dataset, a fixed anchor month
and window sizes w1 at most w2 (w1 at least 1), any country, author or
word whose count is reported in the frames of both window sizes at that
anchor has a count at least as large under the wider window: reported
counts are the occurrence counts of the rolling window, and the window
of w1 months is a sub-selection of the window of w2 months, so counts
never decrease despite the per-frame top-25 author and top-100 word
truncation. -/
theorem c5_monotone (df : List TRecord) (w1 w2 a : Int)
    (_hw1 : 1 ≤ w1) (hw : w1 ≤ w2) (_hne : df ≠ []) :
    (∀ (k : Value) (c1 c2 : Nat),
       (k, c1) ∈ countryFrame df w1 a → (k, c2) ∈ countryFrame df w2 a → c1 ≤ c2) ∧
    (∀ (k : Value) (c1 c2 : Nat),
       (k, c1) ∈ authorFrame df w1 a → (k, c2) ∈ authorFrame df w2 a → c1 ≤ c2) ∧
    (∀ (k : String) (c1 c2 : Nat),
       (k, c1) ∈ wordFrame df w1 a → (k, c2) ∈ wordFrame df w2 a → c1 ≤ c2) := by
  have hsub := windowRecords_sublist df a hw
  refine ⟨?_, ?_, ?_⟩
  · intro k c1 c2 h1 h2
    have e1 := (mem_valueCounts h1).1
    have e2 := (mem_valueCounts h2).1
    rw [e1, e2]
    exact (sublist_flatMap _ hsub).count_le k
  · intro k c1 c2 h1 h2
    have e1 := (mem_valueCounts (List.take_subset _ _ h1)).1
    have e2 := (mem_valueCounts (List.take_subset _ _ h2)).1
    rw [e1, e2]
    exact (sublist_flatMap _ hsub).count_le k
  · intro k c1 c2 h1 h2
    have e1 := (mem_valueCounts (List.take_subset _ _ h1)).1
    have e2 := (mem_valueCounts (List.take_subset _ _ h2)).1
    rw [e1, e2]
    exact (sublist_flatMap _ hsub).count_le k

def dfRolling : List TRecord :=
  [TRecord.mk (Date.mk 2020 2 10) [Value.str "USA"] [Value.str "A"] ["ai"],
   TRecord.mk (Date.mk 2020 3 10) [Value.str "USA"] [Value.str "A"] ["ai"]]

theorem c5_witness :
    (Value.str "USA", 1) ∈ countryFrame dfRolling 1 24242 ∧
    (Value.str "USA", 2) ∈ countryFrame dfRolling 2 24242 ∧ (1 : Nat) ≤ 2 := by
  refine ⟨by decide, by decide, ?_⟩
  exact (c5_monotone dfRolling 1 2 24242 (by decide) (by decide) (by decide)).1
    (Value.str "USA") 1 2 (by decide) (by decide)

/-- Claim C6: the window size bound calculator returns 6 on an empty
temporal dataset; otherwise, with d the whole-month difference between
the earliest and latest dates (year difference times 12 plus month
difference), it returns 1 when d is at most 1 and the minimum of 24
and d otherwise. -/
theorem c6_max_window :
    calculate_max_window [] = 6 ∧
    ∀ (df : List TRecord) (dmin dmax : Date),
      dmin ∈ df.map (fun r => r.date) →
      dmax ∈ df.map (fun r => r.date) →
      (∀ x ∈ df.map (fun r => r.date), dateLe dmin x = true ∧ dateLe x dmax = true) →
      calculate_max_window df =
        (if (dmax.y - dmin.y) * 12 + (dmax.m - dmin.m) ≤ 1 then 1
         else min 24 ((dmax.y - dmin.y) * 12 + (dmax.m - dmin.m))) := by
  constructor
  · rfl
  · intro df dmin dmax hmin hmax hb
    unfold calculate_max_window
    cases hmap : df.map (fun r => r.date) with
    | nil =>
        rw [hmap] at hmin
        exact absurd hmin (by simp)
    | cons d ds =>
        rw [hmap] at hmin hmax hb
        dsimp only
        rcases foldlMin_spec ds d with ⟨minMem, minLe⟩
        rcases foldlMax_spec ds d with ⟨maxMem, maxLe⟩
        have h1 : dmin = ds.foldl (fun a b => if dateLe b a then b else a) d :=
          dateLe_antisymm ((hb _ minMem).1) (minLe dmin hmin)
        have h2 : dmax = ds.foldl (fun a b => if dateLe a b then b else a) d :=
          dateLe_antisymm (maxLe dmax hmax) ((hb _ maxMem).2)
        rw [← h1, ← h2]

theorem c6_witness :
    calculate_max_window
      [TRecord.mk (Date.mk 2020 1 15) [] [] [],
       TRecord.mk (Date.mk 2022 7 1) [] [] []] = 24 ∧
    calculate_max_window
      [TRecord.mk (Date.mk 2020 3 1) [] [] [],
       TRecord.mk (Date.mk 2020 3 28) [] [] []] = 1 := by
  constructor
  · have h := c6_max_window.2
      [TRecord.mk (Date.mk 2020 1 15) [] [] [],
       TRecord.mk (Date.mk 2022 7 1) [] [] []]
      (Date.mk 2020 1 15) (Date.mk 2022 7 1) (by decide) (by decide) (by decide)
    rw [h]
    decide
  · have h := c6_max_window.2
      [TRecord.mk (Date.mk 2020 3 1) [] [] [],
       TRecord.mk (Date.mk 2020 3 28) [] [] []]
      (Date.mk 2020 3 1) (Date.mk 2020 3 28) (by decide) (by decide) (by decide)
    rw [h]
    decide

/-- Claim C7: the period filter equals the declarative filter that
retains exactly the records whose cover-date is a string whose leading
four characters parse as an integer year in the inclusive bounds, in
unchanged relative order, records with missing or unparsable
cover-dates being dropped; and on records dated 2018, 2019, 2020 with
bounds 2019 to 2019 only the 2019 record is returned. -/
theorem c7_filter_by_period :
    (∀ (entries : List Entry) (start_year end_year : Int),
      filter_by_period entries start_year end_year =
        entries.filter (fun ent => keepBySpec ent start_year end_year)) ∧
    filter_by_period
      [[("prism:coverDate", Value.str "2018-03-01")],
       [("prism:coverDate", Value.str "2019-06-15")],
       [("prism:coverDate", Value.str "2020-01-01")]] 2019 2019 =
      [[("prism:coverDate", Value.str "2019-06-15")]] := by
  constructor
  · exact filter_by_period_eq
  · decide

/-- Claim C8: the temporal dataset builder resolves a four-character
digit cover-date to January first of that year and a seven-character
year-month cover-date to the first of that month; for any record
sequence on which it succeeds, the resulting dataset is sorted
ascending by resolved date and its dates are exactly the resolvable
cover-dates of the input (records whose cover-date is missing or fails
to parse are dropped entirely); and re-running it on the same input
yields the same result. -/
theorem c8_temporal_builder :
    (∀ cs : List Char, allDigits cs = true → cs.length = 4 →
       1 ≤ (digitsToNat cs : Int) →
       resolveDate (Value.str (String.mk cs)) = some (Date.mk (digitsToNat cs) 1 1)) ∧
    (∀ ys ms : List Char, allDigits ys = true → ys.length = 4 →
       allDigits ms = true → ms.length = 2 →
       1 ≤ (digitsToNat ys : Int) → 1 ≤ (digitsToNat ms : Int) →
       (digitsToNat ms : Int) ≤ 12 →
       resolveDate (Value.str (String.mk (ys ++ '-' :: ms))) =
         some (Date.mk (digitsToNat ys) (digitsToNat ms) 1)) ∧
    (∀ (entries : List Entry) (df : List TRecord),
       parse_results_for_animation entries = .ok df →
       (df.map (fun r => r.date)).Pairwise (fun a b => dateLe a b = true) ∧
       (df.map (fun r => r.date)).Perm
         (entries.filterMap (fun e => resolveDate (getVal e "prism:coverDate")))) ∧
    (∀ entries : List Entry,
       parse_results_for_animation entries = parse_results_for_animation entries) := by
  refine ⟨resolveDate_year, resolveDate_year_month, ?_, fun _ => rfl⟩
  intro entries df h
  unfold parse_results_for_animation at h
  cases hr : parseAnimRows entries with
  | error err =>
      rw [hr] at h
      dsimp only [Except.map] at h
      exact absurd h (by simp)
  | ok rows =>
      rw [hr] at h
      dsimp only [Except.map] at h
      have hdf : sortByDate rows = df := Except.ok.injEq _ _ ▸ h
      rw [← hdf]
      constructor
      · exact List.pairwise_map.2 (pairwise_sortByDate rows)
      · have hperm : ((sortByDate rows).map (fun r => r.date)).Perm
            (rows.map (fun r => r.date)) := (perm_sortByDate rows).map _
        rw [parseAnimRows_dates entries rows hr] at hperm
        exact hperm

theorem c8_witness :
    resolveDate (Value.str (String.mk ['2', '0', '2', '0'])) =
      some (Date.mk 2020 1 1) ∧
    resolveDate (Value.str (String.mk (['2', '0', '2', '0'] ++ '-' :: ['0', '5']))) =
      some (Date.mk 2020 5 1) ∧
    ([TRecord.mk (Date.mk 2020 3 4) [] [] [],
      TRecord.mk (Date.mk 2020 5 2) [] [] []].map
        (fun r => r.date)).Pairwise (fun a b => dateLe a b = true) := by
  refine ⟨?_, ?_, ?_⟩
  · exact c8_temporal_builder.1 ['2', '0', '2', '0'] (by decide) (by decide) (by decide)
  · exact c8_temporal_builder.2.1 ['2', '0', '2', '0'] ['0', '5'] (by decide) (by decide)
      (by decide) (by decide) (by decide) (by decide) (by decide)
  · exact (c8_temporal_builder.2.2.1
      [[("prism:coverDate", Value.str "2020-05-02")],
       [("prism:coverDate", Value.str "2020-03-04")]]
      [TRecord.mk (Date.mk 2020 3 4) [] [] [],
       TRecord.mk (Date.mk 2020 5 2) [] [] []] (by decide)).1

/-- Claim C9: over a temporal dataset produced by the builder, every
individual country, author or word count reported in an emitted frame
is at most the number of temporal records whose date falls inside that
frame's window, because countries, authors and words are deduplicated
per record before counting, so one record contributes at most one to
any single key. -/
theorem c9_count_bound (entries : List Entry) (df : List TRecord)
    (h : parse_results_for_animation entries = .ok df) (w a : Int) (_hw : 1 ≤ w) :
    (∀ (k : Value) (c : Nat), (k, c) ∈ countryFrame df w a →
       c ≤ (windowRecords df w a).length) ∧
    (∀ (k : Value) (c : Nat), (k, c) ∈ authorFrame df w a →
       c ≤ (windowRecords df w a).length) ∧
    (∀ (k : String) (c : Nat), (k, c) ∈ wordFrame df w a →
       c ≤ (windowRecords df w a).length) := by
  have hnodup : ∀ r ∈ df, r.countries.Nodup ∧ r.authors.Nodup ∧ r.words.Nodup := by
    unfold parse_results_for_animation at h
    cases hr : parseAnimRows entries with
    | error err =>
        rw [hr] at h
        dsimp only [Except.map] at h
        exact absurd h (by simp)
    | ok rows =>
        rw [hr] at h
        dsimp only [Except.map] at h
        have hdf : sortByDate rows = df := Except.ok.injEq _ _ ▸ h
        intro r hrdf
        have hrr : r ∈ rows := ((perm_sortByDate rows).mem_iff).1 (hdf ▸ hrdf)
        exact parseAnimRows_nodup entries rows hr r hrr
  refine ⟨?_, ?_, ?_⟩
  · intro k c hk
    rw [(mem_valueCounts hk).1]
    exact count_flatMap_le _ k _ (fun r hr =>
      ((hnodup r (List.mem_of_mem_filter hr)).1).filter _)
  · intro k c hk
    rw [(mem_valueCounts (List.take_subset _ _ hk)).1]
    exact count_flatMap_le _ k _ (fun r hr =>
      ((hnodup r (List.mem_of_mem_filter hr)).2.1).filter _)
  · intro k c hk
    rw [(mem_valueCounts (List.take_subset _ _ hk)).1]
    exact count_flatMap_le _ k _ (fun r hr =>
      ((hnodup r (List.mem_of_mem_filter hr)).2.2).filter _)

theorem c9_witness :
    (Value.str "USA", 1) ∈
      countryFrame [TRecord.mk (Date.mk 2020 3 4) [Value.str "USA"] [] []] 1 24242 ∧
    (1 : Nat) ≤
      (windowRecords [TRecord.mk (Date.mk 2020 3 4) [Value.str "USA"] [] []] 1 24242).length := by
  refine ⟨by decide, ?_⟩
  exact (c9_count_bound [[("prism:coverDate", Value.str "2020-03-04"),
      ("affiliation", Value.obj [("affiliation-country", Value.str "USA")])]]
      [TRecord.mk (Date.mk 2020 3 4) [Value.str "USA"] [] []]
      (by decide) 1 24242 (by decide)).1 (Value.str "USA") 1 (by decide)

/-- Claim C10: for mapping-typed records the period filter is total:
every exception of its per-record try body (a non-string cover-date
that cannot be sliced or converted, for instance) is caught by the
broad except clause and the record is silently dropped, and the output
is always a subsequence of the input, in input order. -/
theorem c10_filter_total :
    (∀ (entries : List Entry) (start_year end_year : Int),
      (filter_by_period entries start_year end_year).Sublist entries) ∧
    (∀ (ent : Entry) (start_year end_year : Int) (err : PyErr),
      periodTryBody (getVal ent "prism:coverDate") start_year end_year = .error err →
      filter_by_period [ent] start_year end_year = []) := by
  constructor
  · intro entries s e
    rw [filter_by_period_eq]
    exact List.filter_sublist entries
  · intro ent s e err herr
    have hk : keepCode ent s e = false := by
      unfold keepCode
      rw [herr]
      dsimp only
      exact ite_self false
    simp [filter_by_period, hk]

theorem c10_witness :
    filter_by_period [[("prism:coverDate", Value.num 2019)]] 2018 2020 = [] :=
  c10_filter_total.2 [("prism:coverDate", Value.num 2019)] 2018 2020
    PyErr.typeError (by decide)
